import Mathlib

/-!
Shallow embedding of the tunnel-rs core (src/lib.rs).

The Rust code is generic over an unsigned integer index type `T`
(u8, u16, ..., usize).  We model values of `T` as natural numbers
together with an explicit upper bound `M` (the maximum value of the
concrete type, e.g. 255 for u8); saturating addition clamps at `M`
and saturating subtraction is ordinary truncated subtraction on Nat.
The stateful `TunnelBuilder` trait is modelled as a record of pure
state-transition functions over an arbitrary state type.
-/

namespace TunnelRs

/-- Saturating addition clamped at the type maximum `M`
(Rust `saturating_add`). -/
def satAdd (M a b : Nat) : Nat := min (a + b) M

/-- Rust `saturating_sub` on unsigned integers is exactly
truncated subtraction on Nat. -/
def satSub (a b : Nat) : Nat := a - b

/-- Rust `rows_to_loop_iterations`: `rows.saturating_sub(three())`. -/
def rows_to_loop_iterations (rows : Nat) : Nat := satSub rows 3

/-- Rust enum `TunnelBuilderChoice`. -/
inductive TunnelBuilderChoice where
  | MoveLeftWall
  | MoveRightWall
deriving DecidableEq

/-- Rust enum `TunnelCellType`. -/
inductive TunnelCellType where
  | Player
  | Floor
  | Wall
deriving DecidableEq

/-- Rust struct `TunnelWalls<T>`. -/
structure TunnelWalls where
  left_wall : Nat
  gap_to_right_wall : Nat
deriving DecidableEq

/-- Rust struct `Tunnel<T>`: the `VecDeque` of walls is a list whose
head is the front of the deque and whose last element is the back. -/
structure Tunnel where
  player : Nat
  screen_width : Nat
  walls : List TunnelWalls
deriving DecidableEq

/-- Rust trait `TunnelBuilder`, with explicit mutable state of type `σ`:
each method consumes a state and returns its result with the new state. -/
structure TunnelBuilder (σ : Type) where
  choose_player_start : σ → Nat → Nat × σ
  choose_step : σ → TunnelBuilderChoice × σ

/-- Rust `TunnelWalls::in_wall`:
`column <= left_wall || column > left_wall.saturating_add(gap_to_right_wall)`. -/
def TunnelWalls.in_wall (M : Nat) (w : TunnelWalls) (column : Nat) : Bool :=
  decide (column ≤ w.left_wall) ||
    decide (satAdd M w.left_wall w.gap_to_right_wall < column)

/-- Rust `TunnelWalls::cell_type`. -/
def TunnelWalls.cell_type (M : Nat) (w : TunnelWalls) (player row column : Nat) :
    TunnelCellType :=
  if row = 0 ∧ column = player then TunnelCellType.Player
  else if w.in_wall M column then TunnelCellType.Wall
  else TunnelCellType.Floor

/-- Rust `Tunnel::clone_last_row`: returns the cloned back row, and the
(possibly mutated) tunnel — on an empty buffer it pushes a fresh seed row
`{ left_wall: 0, gap_to_right_wall: screen_width.saturating_sub(2) }`
before returning a copy of it. -/
def Tunnel.clone_last_row (t : Tunnel) : TunnelWalls × Tunnel :=
  match t.walls.getLast? with
  | some n => (n, t)
  | none =>
      (⟨0, satSub t.screen_width 2⟩,
        ⟨t.player, t.screen_width, t.walls ++ [⟨0, satSub t.screen_width 2⟩]⟩)

/-- The row-narrowing computation inside Rust `Tunnel::add_one_row`,
applied to the cloned row: the default gap decrement followed by the
builder-chosen wall move. -/
def narrowOne (M width : Nat) (r : TunnelWalls) (c : TunnelBuilderChoice) :
    TunnelWalls :=
  let r1 := if 1 < r.gap_to_right_wall then
      ⟨r.left_wall, r.gap_to_right_wall - 1⟩ else r
  match c with
  | TunnelBuilderChoice.MoveLeftWall =>
      if satAdd M r1.left_wall 3 < width then
        ⟨r1.left_wall + 1, r1.gap_to_right_wall⟩ else r1
  | TunnelBuilderChoice.MoveRightWall =>
      if r1.gap_to_right_wall = 1 then
        ⟨satSub r1.left_wall 1, r1.gap_to_right_wall⟩ else r1

/-- Rust `Tunnel::add_one_row`: clone the back row (seeding an empty
buffer), narrow the clone, and push it onto the back of the buffer. -/
def Tunnel.add_one_row (M : Nat) {σ : Type} (b : TunnelBuilder σ)
    (t : Tunnel) (s : σ) : Tunnel × σ :=
  let rt := t.clone_last_row
  let cs := b.choose_step s
  (⟨rt.2.player, rt.2.screen_width,
      rt.2.walls ++ [narrowOne M rt.2.screen_width rt.1 cs.1]⟩, cs.2)

/-- Loop body of Rust `Tunnel::new`: perform `n` `add_one_row` calls,
threading the builder state. -/
def addRows (M : Nat) {σ : Type} (b : TunnelBuilder σ) :
    Nat → Tunnel × σ → Tunnel × σ
  | 0, ts => ts
  | n + 1, ts => addRows M b n (Tunnel.add_one_row M b ts.1 ts.2)

/-- Rust `Tunnel::new`. -/
def Tunnel.new (M : Nat) {σ : Type} (b : TunnelBuilder σ) (s : σ)
    (rows cols : Nat) : Tunnel × σ :=
  let ps := b.choose_player_start s cols
  addRows M b (rows_to_loop_iterations rows) (⟨ps.1, cols, []⟩, ps.2)

/-- Rust `Tunnel::move_player_left`: `player.saturating_sub(1)`. -/
def Tunnel.move_player_left (t : Tunnel) : Tunnel :=
  ⟨satSub t.player 1, t.screen_width, t.walls⟩

/-- Rust `Tunnel::move_player_right`: `player.saturating_add(1)`. -/
def Tunnel.move_player_right (M : Nat) (t : Tunnel) : Tunnel :=
  ⟨satAdd M t.player 1, t.screen_width, t.walls⟩

/-- Rust `Tunnel::is_collision`. -/
def Tunnel.is_collision (M : Nat) (t : Tunnel) : Bool :=
  match t.walls.head? with
  | some wall => wall.in_wall M t.player
  | none => false

/-- Rust `Tunnel::step`: `add_one_row` then `pop_front`. -/
def Tunnel.step (M : Nat) {σ : Type} (b : TunnelBuilder σ)
    (t : Tunnel) (s : σ) : Tunnel × σ :=
  let ts := Tunnel.add_one_row M b t s
  (⟨ts.1.player, ts.1.screen_width, ts.1.walls.tail⟩, ts.2)

/-- Rust struct `TunnelIterator<T>`: `rows` is the remaining part of
`zip(zero_to(w_len), walls.iter())` and the `Peekable<Cycle<NumRange>>`
of columns is the pair of the cycled range bound `width` and the current
position `col` within it. -/
structure TunnelIterator where
  player : Nat
  width : Nat
  rows : List (Nat × TunnelWalls)
  col : Nat
deriving DecidableEq

/-- Rust `<TunnelIterator as Iterator>::next`, as a state-transition
function returning the produced item (if any) and the successor state.
A zero `width` makes the column cycle empty, so the item is `none` and
the row cursor does not advance (the peek of the next column fails). -/
def TunnelIterator.next (M : Nat) : TunnelIterator →
    Option (Nat × Nat × TunnelCellType) × TunnelIterator
  | ⟨player, width, [], col⟩ => (none, ⟨player, width, [], col⟩)
  | ⟨player, width, (row, w) :: rest, col⟩ =>
      if width = 0 then (none, ⟨player, width, (row, w) :: rest, col⟩)
      else
        let item := some (row, col, w.cell_type M player row col)
        let c2 := (col + 1) % width
        if c2 = 0 then (item, ⟨player, width, rest, c2⟩)
        else (item, ⟨player, width, (row, w) :: rest, c2⟩)

/-- Rust `Tunnel::iter`: the conversion `FromPrimitive::from_usize` of
the buffer length into the index type succeeds exactly when the length
is at most the type maximum `M`, and otherwise falls back to `zero()`. -/
def Tunnel.iter (M : Nat) (t : Tunnel) : TunnelIterator :=
  ⟨t.player, t.screen_width,
    (List.range (if t.walls.length ≤ M then t.walls.length else 0)).zip t.walls,
    0⟩

/-- Drive `TunnelIterator.next` until it yields `none` (`fuel` is a
step bound large enough to never be the reason the run stops), collecting
the produced items — the sequence a Rust `for` loop observes. -/
def runIter (M : Nat) : Nat → TunnelIterator → List (Nat × Nat × TunnelCellType)
  | 0, _ => []
  | fuel + 1, it =>
      match TunnelIterator.next M it with
      | (none, _) => []
      | (some x, it2) => x :: runIter M fuel it2

/-- The full sequence of items produced by `Tunnel::iter` (the buffer
yields at most `walls.length * screen_width` items). -/
def Tunnel.iterList (M : Nat) (t : Tunnel) : List (Nat × Nat × TunnelCellType) :=
  runIter M (t.walls.length * t.screen_width + 1) (t.iter M)

/-- The first-row extraction helper of the repository test suite
(`get_first_row`): keep the cell kinds of the items whose row index is 0. -/
def get_first_row (M : Nat) (t : Tunnel) : List TunnelCellType :=
  ((t.iterList M).filter (fun x => x.1 == 0)).map (fun x => x.2.2)

/-- The tunnel operations a caller can perform after construction. -/
inductive TunnelOp where
  | advanceRow
  | stepRow
  | moveLeft
  | moveRight
deriving DecidableEq

/-- Apply one operation, threading the builder state. -/
def applyOp (M : Nat) {σ : Type} (b : TunnelBuilder σ) (ts : Tunnel × σ) :
    TunnelOp → Tunnel × σ
  | TunnelOp.advanceRow => Tunnel.add_one_row M b ts.1 ts.2
  | TunnelOp.stepRow => Tunnel.step M b ts.1 ts.2
  | TunnelOp.moveLeft => (ts.1.move_player_left, ts.2)
  | TunnelOp.moveRight => (ts.1.move_player_right M, ts.2)

/-- Apply a sequence of operations in order. -/
def applyOps (M : Nat) {σ : Type} (b : TunnelBuilder σ) (ts : Tunnel × σ) :
    List TunnelOp → Tunnel × σ
  | [] => ts
  | op :: ops => applyOps M b (applyOp M b ts op) ops

/-- A deterministic builder: the player starts at `cols - 2` and every
choice is `MoveLeftWall` (the scripted generator of the spec scenario). -/
def constLeftBuilder : TunnelBuilder Unit :=
  ⟨fun s max => (satSub max 2, s), fun s => (TunnelBuilderChoice.MoveLeftWall, s)⟩

/-- Modelled from the spec: the narrowing step as §4.4 of the spec words
it, with the left-wall guard written as the plain comparison
`left_wall + 3 < width` (at least 3 columns of width remain before the
right edge after the move). -/
def specNarrowStep (width : Nat) (r : TunnelWalls) (c : TunnelBuilderChoice) :
    TunnelWalls :=
  let r1 := if 1 < r.gap_to_right_wall then
      ⟨r.left_wall, r.gap_to_right_wall - 1⟩ else r
  match c with
  | TunnelBuilderChoice.MoveLeftWall =>
      if r1.left_wall + 3 < width then
        ⟨r1.left_wall + 1, r1.gap_to_right_wall⟩ else r1
  | TunnelBuilderChoice.MoveRightWall =>
      if r1.gap_to_right_wall = 1 then
        ⟨satSub r1.left_wall 1, r1.gap_to_right_wall⟩ else r1

/-- Modelled from the spec: one row of the row-major cross product of
§4.3 Enumerate, with the cell kind spelled as the spec does. -/
def rowCells (M player width row : Nat) (w : TunnelWalls) :
    List (Nat × Nat × TunnelCellType) :=
  (List.range width).map (fun c =>
    (row, c,
      if row = 0 ∧ c = player then TunnelCellType.Player
      else if w.in_wall M c then TunnelCellType.Wall
      else TunnelCellType.Floor))

/-- Modelled from the spec: all rows of the cross product, starting the
row numbering at `row0`. -/
def rowMajorCellsAux (M player width : Nat) :
    Nat → List TunnelWalls → List (Nat × Nat × TunnelCellType)
  | _, [] => []
  | row0, w :: rest =>
      rowCells M player width row0 w ++
        rowMajorCellsAux M player width (row0 + 1) rest

/-- Modelled from the spec: the full row-major (row, column, kind)
sequence over every buffered row crossed with every column. -/
def rowMajorCells (M player width : Nat) (walls : List TunnelWalls) :
    List (Nat × Nat × TunnelCellType) :=
  rowMajorCellsAux M player width 0 walls

/-- Apply a tunnel-to-tunnel move `n` times. -/
def repeatMove (f : Tunnel → Tunnel) : Nat → Tunnel → Tunnel
  | 0, t => t
  | n + 1, t => repeatMove f n (f t)

/-! ## Basic lemmas about the embedded operations -/

theorem mem_of_getLast?_eq {α : Type} {l : List α} {a : α}
    (h : l.getLast? = some a) : a ∈ l := by
  cases l with
  | nil => simp at h
  | cons x xs => exact List.mem_of_mem_getLast? (by rw [h]; rfl)

theorem add_one_row_eq_of_getLast (M : Nat) {σ : Type} (b : TunnelBuilder σ)
    (t : Tunnel) (s : σ) (r : TunnelWalls) (hr : t.walls.getLast? = some r) :
    Tunnel.add_one_row M b t s =
      (⟨t.player, t.screen_width,
          t.walls ++ [narrowOne M t.screen_width r (b.choose_step s).1]⟩,
        (b.choose_step s).2) := by
  simp only [Tunnel.add_one_row, Tunnel.clone_last_row, hr]

theorem add_one_row_eq_of_nil (M : Nat) {σ : Type} (b : TunnelBuilder σ)
    (t : Tunnel) (s : σ) (h : t.walls = []) :
    Tunnel.add_one_row M b t s =
      (⟨t.player, t.screen_width,
          [⟨0, satSub t.screen_width 2⟩,
            narrowOne M t.screen_width ⟨0, satSub t.screen_width 2⟩
              (b.choose_step s).1]⟩,
        (b.choose_step s).2) := by
  simp only [Tunnel.add_one_row, Tunnel.clone_last_row, h]
  rfl

theorem add_one_row_walls_length (M : Nat) {σ : Type} (b : TunnelBuilder σ)
    (t : Tunnel) (s : σ) :
    (Tunnel.add_one_row M b t s).1.walls.length =
      if t.walls = [] then 2 else t.walls.length + 1 := by
  cases h : t.walls.getLast? with
  | none =>
      have h0 : t.walls = [] := List.getLast?_eq_none_iff.mp h
      rw [add_one_row_eq_of_nil M b t s h0, if_pos h0]
      rfl
  | some r =>
      have h0 : t.walls ≠ [] := by
        intro hnil
        rw [hnil] at h
        simp at h
      rw [add_one_row_eq_of_getLast M b t s r h, if_neg h0]
      simp

theorem add_one_row_walls_ne (M : Nat) {σ : Type} (b : TunnelBuilder σ)
    (t : Tunnel) (s : σ) : (Tunnel.add_one_row M b t s).1.walls ≠ [] := by
  have h := add_one_row_walls_length M b t s
  intro hnil
  rw [hnil] at h
  by_cases h0 : t.walls = [] <;> simp [h0] at h

theorem add_one_row_screen_width (M : Nat) {σ : Type} (b : TunnelBuilder σ)
    (t : Tunnel) (s : σ) :
    (Tunnel.add_one_row M b t s).1.screen_width = t.screen_width := by
  cases h : t.walls.getLast? with
  | none =>
      rw [add_one_row_eq_of_nil M b t s (List.getLast?_eq_none_iff.mp h)]
  | some r => rw [add_one_row_eq_of_getLast M b t s r h]

theorem applyOp_screen_width (M : Nat) {σ : Type} (b : TunnelBuilder σ)
    (ts : Tunnel × σ) (op : TunnelOp) :
    (applyOp M b ts op).1.screen_width = ts.1.screen_width := by
  cases op with
  | advanceRow => exact add_one_row_screen_width M b ts.1 ts.2
  | stepRow => exact add_one_row_screen_width M b ts.1 ts.2
  | moveLeft => rfl
  | moveRight => rfl

theorem applyOps_screen_width (M : Nat) {σ : Type} (b : TunnelBuilder σ)
    (ts : Tunnel × σ) (ops : List TunnelOp) :
    (applyOps M b ts ops).1.screen_width = ts.1.screen_width := by
  induction ops generalizing ts with
  | nil => rfl
  | cons op ops ih =>
      rw [applyOps, ih, applyOp_screen_width]

theorem applyOps_append (M : Nat) {σ : Type} (b : TunnelBuilder σ)
    (ts : Tunnel × σ) (l1 l2 : List TunnelOp) :
    applyOps M b ts (l1 ++ l2) = applyOps M b (applyOps M b ts l1) l2 := by
  induction l1 generalizing ts with
  | nil => rfl
  | cons op ops ih =>
      simp only [List.cons_append, applyOps]
      exact ih _

theorem addRows_eq_applyOps (M : Nat) {σ : Type} (b : TunnelBuilder σ)
    (n : Nat) (ts : Tunnel × σ) :
    addRows M b n ts =
      applyOps M b ts (List.replicate n TunnelOp.advanceRow) := by
  induction n generalizing ts with
  | zero => rfl
  | succ n ih => simp only [addRows, List.replicate, applyOps, applyOp, ih]

theorem addRows_walls_length_of_ne (M : Nat) {σ : Type} (b : TunnelBuilder σ)
    (n : Nat) : ∀ (t : Tunnel) (s : σ), t.walls ≠ [] →
    (addRows M b n (t, s)).1.walls.length = t.walls.length + n := by
  induction n with
  | zero => intro t s _; rfl
  | succ n ih =>
      intro t s h
      have hlen := add_one_row_walls_length M b t s
      rw [if_neg h] at hlen
      have hne := add_one_row_walls_ne M b t s
      calc (addRows M b (n + 1) (t, s)).1.walls.length
          = (addRows M b n (Tunnel.add_one_row M b t s)).1.walls.length := rfl
        _ = (Tunnel.add_one_row M b t s).1.walls.length + n :=
            ih (Tunnel.add_one_row M b t s).1 (Tunnel.add_one_row M b t s).2 hne
        _ = t.walls.length + (n + 1) := by omega

theorem narrowOne_eq_specNarrowStep (M width : Nat) (hwM : width ≤ M)
    (r : TunnelWalls) (c : TunnelBuilderChoice) :
    narrowOne M width r c = specNarrowStep width r c := by
  cases c
  · simp only [narrowOne, specNarrowStep, satAdd, satSub]
    split_ifs <;> first | rfl | omega
  · simp only [narrowOne, specNarrowStep, satAdd, satSub]

theorem new_walls_length (M : Nat) {σ : Type} (b : TunnelBuilder σ) (s : σ)
    (h w : Nat) :
    (Tunnel.new M b s h w).1.walls.length =
      if h - 3 = 0 then 0 else (h - 3) + 1 := by
  unfold Tunnel.new rows_to_loop_iterations satSub
  cases hn : h - 3 with
  | zero => rfl
  | succ n =>
      simp only [Nat.succ_ne_zero, if_neg]
      set t0 : Tunnel := ⟨(b.choose_player_start s w).1, w, []⟩ with ht0
      have h0 : t0.walls = [] := rfl
      have hlen := add_one_row_walls_length M b t0 (b.choose_player_start s w).2
      rw [if_pos h0] at hlen
      have hne := add_one_row_walls_ne M b t0 (b.choose_player_start s w).2
      calc (addRows M b (n + 1)
              (t0, (b.choose_player_start s w).2)).1.walls.length
          = (addRows M b n
              (Tunnel.add_one_row M b t0
                (b.choose_player_start s w).2)).1.walls.length := rfl
        _ = (Tunnel.add_one_row M b t0
              (b.choose_player_start s w).2).1.walls.length + n :=
            addRows_walls_length_of_ne M b n _ _ hne
        _ = n + 1 + 1 := by omega

theorem new_eq_applyOps (M : Nat) {σ : Type} (b : TunnelBuilder σ) (s : σ)
    (h w : Nat) :
    Tunnel.new M b s h w =
      applyOps M b
        (⟨(b.choose_player_start s w).1, w, []⟩, (b.choose_player_start s w).2)
        (List.replicate (h - 3) TunnelOp.advanceRow) := by
  unfold Tunnel.new rows_to_loop_iterations satSub
  exact addRows_eq_applyOps M b (h - 3) _

theorem new_screen_width (M : Nat) {σ : Type} (b : TunnelBuilder σ) (s : σ)
    (h w : Nat) : (Tunnel.new M b s h w).1.screen_width = w := by
  rw [new_eq_applyOps, applyOps_screen_width]

theorem narrowOne_gap_ge_one (M width : Nat) (r : TunnelWalls)
    (c : TunnelBuilderChoice) (h : 1 ≤ r.gap_to_right_wall) :
    1 ≤ (narrowOne M width r c).gap_to_right_wall := by
  cases c
  all_goals
    simp only [narrowOne, satAdd, satSub]
    split_ifs <;> first | omega | (dsimp only; omega)

theorem narrowOne_sum_le (M width : Nat) (hwM : width ≤ M) (r : TunnelWalls)
    (c : TunnelBuilderChoice)
    (h : r.left_wall + r.gap_to_right_wall ≤ width - 2) :
    (narrowOne M width r c).left_wall +
      (narrowOne M width r c).gap_to_right_wall ≤ width - 2 := by
  cases c
  all_goals
    simp only [narrowOne, satAdd, satSub]
    split_ifs <;> first | omega | (dsimp only; omega)

theorem gaps_add_one_row (M : Nat) {σ : Type} (b : TunnelBuilder σ)
    (t : Tunnel) (s : σ) (hw : 3 ≤ t.screen_width)
    (hg : ∀ r ∈ t.walls, 1 ≤ r.gap_to_right_wall) :
    ∀ r ∈ (Tunnel.add_one_row M b t s).1.walls, 1 ≤ r.gap_to_right_wall := by
  cases h : t.walls.getLast? with
  | some r0 =>
      rw [add_one_row_eq_of_getLast M b t s r0 h]
      intro r hr
      rcases List.mem_append.mp hr with h1 | h1
      · exact hg r h1
      · simp only [List.mem_singleton] at h1
        subst h1
        exact narrowOne_gap_ge_one _ _ _ _ (hg r0 (mem_of_getLast?_eq h))
  | none =>
      rw [add_one_row_eq_of_nil M b t s (List.getLast?_eq_none_iff.mp h)]
      intro r hr
      have hseed : (1 : Nat) ≤ satSub t.screen_width 2 := by
        unfold satSub
        omega
      rcases List.mem_pair.mp hr with h1 | h1 <;> subst h1
      · exact hseed
      · exact narrowOne_gap_ge_one _ _ _ _ hseed

theorem sums_add_one_row (M : Nat) {σ : Type} (b : TunnelBuilder σ)
    (t : Tunnel) (s : σ) (w : Nat) (hw : t.screen_width = w) (hwM : w ≤ M)
    (hs : ∀ r ∈ t.walls, r.left_wall + r.gap_to_right_wall ≤ w - 2) :
    ∀ r ∈ (Tunnel.add_one_row M b t s).1.walls,
      r.left_wall + r.gap_to_right_wall ≤ w - 2 := by
  subst hw
  cases h : t.walls.getLast? with
  | some r0 =>
      rw [add_one_row_eq_of_getLast M b t s r0 h]
      intro r hr
      rcases List.mem_append.mp hr with h1 | h1
      · exact hs r h1
      · simp only [List.mem_singleton] at h1
        subst h1
        exact narrowOne_sum_le M t.screen_width hwM r0 _
          (hs r0 (mem_of_getLast?_eq h))
  | none =>
      rw [add_one_row_eq_of_nil M b t s (List.getLast?_eq_none_iff.mp h)]
      intro r hr
      have hseed : (0 : Nat) + satSub t.screen_width 2 ≤ t.screen_width - 2 := by
        unfold satSub
        omega
      rcases List.mem_pair.mp hr with h1 | h1 <;> subst h1
      · exact hseed
      · exact narrowOne_sum_le M t.screen_width hwM _ _ hseed

theorem gaps_applyOps (M : Nat) {σ : Type} (b : TunnelBuilder σ)
    (ts : Tunnel × σ) (ops : List TunnelOp) (hw : 3 ≤ ts.1.screen_width)
    (hg : ∀ r ∈ ts.1.walls, 1 ≤ r.gap_to_right_wall) :
    ∀ r ∈ (applyOps M b ts ops).1.walls, 1 ≤ r.gap_to_right_wall := by
  induction ops generalizing ts with
  | nil => exact hg
  | cons op ops ih =>
      rw [applyOps]
      apply ih
      · rw [applyOp_screen_width]
        exact hw
      · cases op with
        | advanceRow => exact gaps_add_one_row M b ts.1 ts.2 hw hg
        | stepRow =>
            intro r hr
            exact gaps_add_one_row M b ts.1 ts.2 hw hg r
              (List.mem_of_mem_tail hr)
        | moveLeft => exact hg
        | moveRight => exact hg

theorem sums_applyOps (M : Nat) {σ : Type} (b : TunnelBuilder σ)
    (ts : Tunnel × σ) (ops : List TunnelOp) (w : Nat)
    (hw : ts.1.screen_width = w) (hwM : w ≤ M)
    (hs : ∀ r ∈ ts.1.walls, r.left_wall + r.gap_to_right_wall ≤ w - 2) :
    ∀ r ∈ (applyOps M b ts ops).1.walls,
      r.left_wall + r.gap_to_right_wall ≤ w - 2 := by
  induction ops generalizing ts with
  | nil => exact hs
  | cons op ops ih =>
      rw [applyOps]
      apply ih
      · rw [applyOp_screen_width]
        exact hw
      · cases op with
        | advanceRow => exact sums_add_one_row M b ts.1 ts.2 w hw hwM hs
        | stepRow =>
            intro r hr
            exact sums_add_one_row M b ts.1 ts.2 w hw hwM hs r
              (List.mem_of_mem_tail hr)
        | moveLeft => exact hs
        | moveRight => exact hs

theorem in_wall_edges (M w : Nat) (r : TunnelWalls) (hwM : w ≤ M)
    (hsum : r.left_wall + r.gap_to_right_wall ≤ w - 2) (hw1 : 1 ≤ w) :
    r.in_wall M 0 = true ∧ r.in_wall M (w - 1) = true := by
  simp only [TunnelWalls.in_wall, satAdd, Bool.or_eq_true, decide_eq_true_eq]
  omega

/-! ## Lemmas about the cell enumerator -/

theorem runIter_succ (M fuel : Nat) (it : TunnelIterator) :
    runIter M (fuel + 1) it =
      match TunnelIterator.next M it with
      | (none, _) => []
      | (some x, it2) => x :: runIter M fuel it2 := rfl

theorem next_none_of_rows_nil (M : Nat) (it : TunnelIterator)
    (h : it.rows = []) : (TunnelIterator.next M it).1 = none := by
  cases it with
  | mk p w rows c =>
      replace h : rows = [] := h
      subst h
      rfl

theorem runIter_rows_nil (M fuel : Nat) (it : TunnelIterator)
    (h : it.rows = []) : runIter M fuel it = [] := by
  cases it with
  | mk p w rows c =>
      replace h : rows = [] := h
      subst h
      cases fuel <;> rfl

theorem runIter_width_zero (M : Nat) (it : TunnelIterator)
    (h : it.width = 0) : ∀ fuel, runIter M fuel it = [] := by
  cases it with
  | mk p w rows c =>
      replace h : w = 0 := h
      subst h
      intro fuel
      cases fuel with
      | zero => rfl
      | succ n =>
          cases rows with
          | nil => rfl
          | cons pr rest => cases pr with | mk row wl => rfl

theorem rowMajorCellsAux_width_zero (M player : Nat) :
    ∀ (row0 : Nat) (L : List TunnelWalls),
      rowMajorCellsAux M player 0 row0 L = [] := by
  intro row0 L
  induction L generalizing row0 with
  | nil => rfl
  | cons w rest ih => simp [rowMajorCellsAux, rowCells, ih]

theorem runIter_one_row (M player width row : Nat) (w : TunnelWalls)
    (rest : List (Nat × TunnelWalls)) :
    ∀ (j k fuel : Nat), k + (j + 1) = width →
      runIter M (fuel + (j + 1)) ⟨player, width, (row, w) :: rest, k⟩ =
        (List.range' k (j + 1)).map
            (fun c => (row, c, w.cell_type M player row c)) ++
          runIter M fuel ⟨player, width, rest, 0⟩ := by
  intro j
  induction j with
  | zero =>
      intro k fuel hk
      have hw0 : width ≠ 0 := by omega
      have hk1 : k + 1 = width := by omega
      have hmod : (k + 1) % width = 0 := by rw [hk1, Nat.mod_self]
      have hnext : TunnelIterator.next M ⟨player, width, (row, w) :: rest, k⟩ =
          (some (row, k, w.cell_type M player row k),
            ⟨player, width, rest, 0⟩) := by
        simp [TunnelIterator.next, hw0, hmod]
      simp only [Nat.zero_add]
      rw [runIter_succ, hnext]
      dsimp only
      simp [List.range'_one]
  | succ j ih =>
      intro k fuel hk
      have hw0 : width ≠ 0 := by omega
      have hlt : k + 1 < width := by omega
      have hmod : (k + 1) % width = k + 1 := Nat.mod_eq_of_lt hlt
      have hnext : TunnelIterator.next M ⟨player, width, (row, w) :: rest, k⟩ =
          (some (row, k, w.cell_type M player row k),
            ⟨player, width, (row, w) :: rest, k + 1⟩) := by
        simp [TunnelIterator.next, hw0, hmod]
      have heq : fuel + (j + 1 + 1) = (fuel + (j + 1)) + 1 := by omega
      rw [heq, runIter_succ, hnext]
      dsimp only
      rw [ih (k + 1) fuel (by omega), List.range'_succ k (j + 1) 1]
      simp

theorem runIter_rows (M player width : Nat) (hw : 0 < width) :
    ∀ (L : List TunnelWalls) (row0 fuel : Nat),
      runIter M (fuel + L.length * width)
          ⟨player, width, (List.range' row0 L.length).zip L, 0⟩ =
        rowMajorCellsAux M player width row0 L := by
  intro L
  induction L with
  | nil =>
      intro row0 fuel
      exact runIter_rows_nil M (fuel + [].length * width) _ rfl
  | cons w rest ih =>
      intro row0 fuel
      obtain ⟨j, hj⟩ : ∃ j, width = j + 1 := ⟨width - 1, by omega⟩
      have heq : fuel + (w :: rest).length * width =
          (fuel + rest.length * width) + (j + 1) := by
        simp only [List.length_cons]
        rw [Nat.succ_mul, hj, ← Nat.add_assoc]
      have hzip : (List.range' row0 (w :: rest).length).zip (w :: rest) =
          (row0, w) :: (List.range' (row0 + 1) rest.length).zip rest := by
        simp only [List.length_cons]
        rw [List.range'_succ]
        rfl
      rw [hzip, heq]
      rw [runIter_one_row M player width row0 w
        ((List.range' (row0 + 1) rest.length).zip rest) j 0
        (fuel + rest.length * width) (by omega)]
      rw [ih (row0 + 1) fuel]
      simp only [rowMajorCellsAux]
      congr 1
      rw [← hj, ← List.range_eq_range']
      simp only [rowCells, TunnelWalls.cell_type]

/-! ## Claim theorems -/

/-- C1 counterexample: for height 5 and width 5 the buffer right after
construction holds 3 rows, not `max (5 - 3) 0 = 2` as the claim states
(the first loop iteration pushes both the seed row and its narrowed
clone). -/
theorem c1_counterexample :
    ¬ ((Tunnel.new 255 constLeftBuilder () 5 5).1.walls.length =
        max (5 - 3) 0) := by decide

/-- C1 (amended): immediately after `Construct(generator, h, w)` the row
buffer contains `max (h - 3) 0` rows when that quantity is zero (h at
most 3), and `max (h - 3) 0 + 1` rows otherwise: the `max (h - 3) 0`
loop iterations produce one extra row because the first iteration seeds
the empty buffer with a full-width row and then appends the narrowed
clone of that seed. -/
theorem c1_amended_buffer_length (M : Nat) {σ : Type} (b : TunnelBuilder σ)
    (s : σ) (h w : Nat) :
    (Tunnel.new M b s h w).1.walls.length =
      if max (h - 3) 0 = 0 then 0 else max (h - 3) 0 + 1 := by
  rw [new_walls_length M b s h w]
  simp

/-- C2: on a non-empty buffer, `AdvanceRow` clones the back row and
appends exactly one narrowed copy of it: first the gap is decremented
when it exceeds 1; then `MoveLeftWall` pushes the left wall right by one
only when `left_wall + 3 < width` still holds (at least 3 columns remain
before the right edge), and `MoveRightWall` pulls the left wall left by
one (saturating) only when the gap equals 1 at that point, being a no-op
when the gap is larger. -/
theorem c2_advance_row_nonempty (M : Nat) {σ : Type} (b : TunnelBuilder σ)
    (t : Tunnel) (s : σ) (r : TunnelWalls) (hwM : t.screen_width ≤ M)
    (hr : t.walls.getLast? = some r) :
    (Tunnel.add_one_row M b t s).1.walls =
      t.walls ++ [specNarrowStep t.screen_width r (b.choose_step s).1] := by
  rw [add_one_row_eq_of_getLast M b t s r hr]
  rw [narrowOne_eq_specNarrowStep M t.screen_width hwM]

/-- C2 witness: the theorem applied to a concrete one-row tunnel. -/
theorem c2_witness :
    (5 ≤ 255 ∧ ([⟨0, 3⟩] : List TunnelWalls).getLast? = some ⟨0, 3⟩) ∧
      (Tunnel.add_one_row 255 constLeftBuilder ⟨3, 5, [⟨0, 3⟩]⟩ ()).1.walls =
        [⟨0, 3⟩] ++
          [specNarrowStep 5 ⟨0, 3⟩ (constLeftBuilder.choose_step ()).1] :=
  ⟨⟨by decide, by decide⟩,
    c2_advance_row_nonempty 255 constLeftBuilder ⟨3, 5, [⟨0, 3⟩]⟩ () ⟨0, 3⟩
      (by decide) (by decide)⟩

/-- C7 counterexample: on an empty buffer (width 5) `AdvanceRow` leaves
2 rows in the buffer, not exactly one seed row as the claim states. -/
theorem c7_counterexample :
    ¬ ((Tunnel.add_one_row 255 constLeftBuilder ⟨0, 5, []⟩ ()).1.walls.length
        = 1) := by decide

/-- C7 (amended): on an empty buffer `AdvanceRow` appends exactly two
rows: the full-width single-gap seed row (`left_wall = 0`,
`gap_width = width - 2` saturating) followed by the narrowed clone of
that seed produced by the usual per-row narrowing step. -/
theorem c7_amended_seed_rows (M : Nat) {σ : Type} (b : TunnelBuilder σ)
    (t : Tunnel) (s : σ) (hwM : t.screen_width ≤ M) (h : t.walls = []) :
    (Tunnel.add_one_row M b t s).1.walls =
      [⟨0, satSub t.screen_width 2⟩,
        specNarrowStep t.screen_width ⟨0, satSub t.screen_width 2⟩
          (b.choose_step s).1] := by
  rw [add_one_row_eq_of_nil M b t s h]
  rw [narrowOne_eq_specNarrowStep M t.screen_width hwM]

/-- C7 witness: the amended theorem applied to a concrete empty tunnel
of width 5. -/
theorem c7_witness :
    (5 ≤ 255 ∧ (⟨0, 5, []⟩ : Tunnel).walls = []) ∧
      (Tunnel.add_one_row 255 constLeftBuilder ⟨0, 5, []⟩ ()).1.walls =
        [⟨0, satSub 5 2⟩,
          specNarrowStep 5 ⟨0, satSub 5 2⟩
            (constLeftBuilder.choose_step ()).1] :=
  ⟨⟨by decide, by decide⟩,
    c7_amended_seed_rows 255 constLeftBuilder ⟨0, 5, []⟩ ()
      (by decide) (by decide)⟩

/-- C8: for width 5 and height 5, with a generator that starts the
player at `width - 2 = 3` and narrows from the left during the 2
construction row-generations, the front row enumerated right after
construction is `[Wall, Floor, Floor, Player, Wall]` with the player at
column 3. -/
theorem c8_scenario_front_row :
    (Tunnel.new 255 constLeftBuilder () 5 5).1.player = 3 ∧
      get_first_row 255 (Tunnel.new 255 constLeftBuilder () 5 5).1 =
        [TunnelCellType.Wall, TunnelCellType.Floor, TunnelCellType.Floor,
          TunnelCellType.Player, TunnelCellType.Wall] := by decide

/-- C9: `MovePlayerLeft` at column 0 stays at 0 under any number of
repetitions, and `MovePlayerRight` at the index-type maximum `M` stays
at `M` under any number of repetitions; the saturating arithmetic never
wraps. -/
theorem c9_player_moves_idempotent (M : Nat) (t : Tunnel) :
    (t.player = 0 →
      ∀ n, (repeatMove Tunnel.move_player_left n t).player = 0) ∧
    (t.player = M →
      ∀ n, (repeatMove (Tunnel.move_player_right M) n t).player = M) := by
  constructor
  · intro h n
    induction n generalizing t with
    | zero => exact h
    | succ n ih =>
        apply ih
        simp [Tunnel.move_player_left, satSub, h]
  · intro h n
    induction n generalizing t with
    | zero => exact h
    | succ n ih =>
        apply ih
        simp [Tunnel.move_player_right, satAdd, h]

/-- C5: when the buffered row count exceeds the index-type maximum `M`
(the conversion from the buffer length fails and falls back to zero),
enumeration yields the empty sequence: the very first `next` call
returns nothing, and the collected item list is empty — no panic and no
wrapped-around row indices. -/
theorem c5_overflow_empty_enumeration (M : Nat) (t : Tunnel)
    (h : M < t.walls.length) :
    ((t.iter M).next M).1 = none ∧ t.iterList M = [] := by
  have hrows : (t.iter M).rows = [] := by
    unfold Tunnel.iter
    rw [if_neg (by omega)]
    rfl
  exact ⟨next_none_of_rows_nil M _ hrows, runIter_rows_nil M _ _ hrows⟩

/-- C5 witness: a 4-row tunnel over an index type with maximum 3. -/
theorem c5_witness :
    3 < (⟨0, 2, [⟨0, 0⟩, ⟨0, 0⟩, ⟨0, 0⟩, ⟨0, 0⟩]⟩ : Tunnel).walls.length ∧
      ((((⟨0, 2, [⟨0, 0⟩, ⟨0, 0⟩, ⟨0, 0⟩, ⟨0, 0⟩]⟩ : Tunnel).iter 3).next
          3).1 = none ∧
        (⟨0, 2, [⟨0, 0⟩, ⟨0, 0⟩, ⟨0, 0⟩, ⟨0, 0⟩]⟩ : Tunnel).iterList 3 = []) :=
  ⟨by decide,
    c5_overflow_empty_enumeration 3 ⟨0, 2, [⟨0, 0⟩, ⟨0, 0⟩, ⟨0, 0⟩, ⟨0, 0⟩]⟩
      (by decide)⟩

/-- C6: when the buffered row count is representable (`length ≤ M`), the
enumeration is exactly the row-major cross product of every buffered row
index with every column in `[0, width)`, the cell kind being Player at
row 0 and the player column, else Wall where the wall test holds, else
Floor; and the sequence is empty when the width is 0. -/
theorem c6_enumeration_cross_product (M : Nat) (t : Tunnel)
    (h : t.walls.length ≤ M) :
    t.iterList M = rowMajorCells M t.player t.screen_width t.walls ∧
      (t.screen_width = 0 → t.iterList M = []) := by
  have main : t.iterList M =
      rowMajorCells M t.player t.screen_width t.walls := by
    unfold Tunnel.iterList Tunnel.iter rowMajorCells
    rw [if_pos h]
    rcases Nat.eq_zero_or_pos t.screen_width with hw | hw
    · rw [hw]
      rw [runIter_width_zero M _ rfl]
      rw [rowMajorCellsAux_width_zero]
    · rw [List.range_eq_range']
      rw [Nat.add_comm (t.walls.length * t.screen_width) 1]
      exact runIter_rows M t.player t.screen_width hw t.walls 0 1
  refine ⟨main, fun hw => ?_⟩
  rw [main]
  unfold rowMajorCells
  rw [hw]
  exact rowMajorCellsAux_width_zero M t.player 0 t.walls

/-- C6 witness: a concrete two-row tunnel of width 5. -/
theorem c6_witness :
    (⟨3, 5, [⟨0, 3⟩, ⟨1, 2⟩]⟩ : Tunnel).walls.length ≤ 255 ∧
      ((⟨3, 5, [⟨0, 3⟩, ⟨1, 2⟩]⟩ : Tunnel).iterList 255 =
          rowMajorCells 255 (⟨3, 5, [⟨0, 3⟩, ⟨1, 2⟩]⟩ : Tunnel).player
            (⟨3, 5, [⟨0, 3⟩, ⟨1, 2⟩]⟩ : Tunnel).screen_width
            (⟨3, 5, [⟨0, 3⟩, ⟨1, 2⟩]⟩ : Tunnel).walls ∧
        ((⟨3, 5, [⟨0, 3⟩, ⟨1, 2⟩]⟩ : Tunnel).screen_width = 0 →
          (⟨3, 5, [⟨0, 3⟩, ⟨1, 2⟩]⟩ : Tunnel).iterList 255 = [])) :=
  ⟨by decide,
    c6_enumeration_cross_product 255 ⟨3, 5, [⟨0, 3⟩, ⟨1, 2⟩]⟩ (by decide)⟩

/-- C3 counterexample: at width 2 a single `AdvanceRow` on a freshly
constructed tunnel leaves the buffer non-empty with every row having
`gap_width = 0`, so the claim fails for widths below 3 (the seed gap
`width - 2` saturates to 0 and is never grown). -/
theorem c3_counterexample :
    (applyOps 255 constLeftBuilder (Tunnel.new 255 constLeftBuilder () 0 2)
        [TunnelOp.advanceRow]).1.walls ≠ [] ∧
      ¬ (∀ r ∈ (applyOps 255 constLeftBuilder
            (Tunnel.new 255 constLeftBuilder () 0 2)
            [TunnelOp.advanceRow]).1.walls,
          1 ≤ r.gap_to_right_wall) := by decide

/-- C3 (amended): for every tunnel constructed with width at least 3,
after any sequence of operations ending in an `AdvanceRow` the buffer is
non-empty and every buffered row has `gap_width` at least 1, for any
generator and any sequence of its choices. -/
theorem c3_amended_gap_invariant (M : Nat) {σ : Type} (b : TunnelBuilder σ)
    (s : σ) (h w : Nat) (hw : 3 ≤ w) (ops : List TunnelOp) :
    (applyOps M b (Tunnel.new M b s h w)
        (ops ++ [TunnelOp.advanceRow])).1.walls ≠ [] ∧
      ∀ r ∈ (applyOps M b (Tunnel.new M b s h w)
          (ops ++ [TunnelOp.advanceRow])).1.walls,
        1 ≤ r.gap_to_right_wall := by
  have hnew_w : (Tunnel.new M b s h w).1.screen_width = w :=
    new_screen_width M b s h w
  have hnew_gaps : ∀ r ∈ (Tunnel.new M b s h w).1.walls,
      1 ≤ r.gap_to_right_wall := by
    rw [new_eq_applyOps]
    exact gaps_applyOps M b _ _ hw (by simp)
  have hmid_w :
      (applyOps M b (Tunnel.new M b s h w) ops).1.screen_width = w := by
    rw [applyOps_screen_width, hnew_w]
  have hmid_gaps := gaps_applyOps M b (Tunnel.new M b s h w) ops
    (by rw [hnew_w]; exact hw) hnew_gaps
  rw [applyOps_append]
  constructor
  · exact add_one_row_walls_ne M b
      (applyOps M b (Tunnel.new M b s h w) ops).1
      (applyOps M b (Tunnel.new M b s h w) ops).2
  · exact gaps_add_one_row M b
      (applyOps M b (Tunnel.new M b s h w) ops).1
      (applyOps M b (Tunnel.new M b s h w) ops).2
      (by rw [hmid_w]; exact hw) hmid_gaps

/-- C3 witness: the amended theorem at width 5, height 5, with a step
and two player moves before the final row advance. -/
theorem c3_witness :
    3 ≤ 5 ∧
      ((applyOps 255 constLeftBuilder (Tunnel.new 255 constLeftBuilder () 5 5)
          ([TunnelOp.stepRow, TunnelOp.moveLeft, TunnelOp.moveRight] ++
            [TunnelOp.advanceRow])).1.walls ≠ [] ∧
        ∀ r ∈ (applyOps 255 constLeftBuilder
            (Tunnel.new 255 constLeftBuilder () 5 5)
            ([TunnelOp.stepRow, TunnelOp.moveLeft, TunnelOp.moveRight] ++
              [TunnelOp.advanceRow])).1.walls,
          1 ≤ r.gap_to_right_wall) :=
  ⟨by decide,
    c3_amended_gap_invariant 255 constLeftBuilder () 5 5 (by decide)
      [TunnelOp.stepRow, TunnelOp.moveLeft, TunnelOp.moveRight]⟩

/-- C4: `IsCollision` is true exactly when the buffer is non-empty and
the front row satisfies `player <= left_wall` or
`player > left_wall + gap_width`; it is false (not an error) on an empty
buffer, and false exactly when the player is strictly inside the front
row passable range (boundary columns collide). -/
theorem c4_is_collision_characterization (M : Nat) (t : Tunnel)
    (hp : t.player ≤ M) :
    (t.is_collision M = true ↔ ∃ w, t.walls.head? = some w ∧
        (t.player ≤ w.left_wall ∨
          w.left_wall + w.gap_to_right_wall < t.player)) ∧
      (t.walls = [] → t.is_collision M = false) ∧
      (t.is_collision M = false ↔ t.walls = [] ∨
        ∃ w, t.walls.head? = some w ∧ w.left_wall < t.player ∧
          t.player ≤ w.left_wall + w.gap_to_right_wall) := by
  cases hwl : t.walls with
  | nil =>
      have hc : t.is_collision M = false := by
        simp [Tunnel.is_collision, hwl]
      simp [hc]
  | cons w0 rest =>
      have hcoll : t.is_collision M = true ↔
          (t.player ≤ w0.left_wall ∨
            satAdd M w0.left_wall w0.gap_to_right_wall < t.player) := by
        simp [Tunnel.is_collision, hwl, TunnelWalls.in_wall]
      have hiff : (t.player ≤ w0.left_wall ∨
            satAdd M w0.left_wall w0.gap_to_right_wall < t.player) ↔
          (t.player ≤ w0.left_wall ∨
            w0.left_wall + w0.gap_to_right_wall < t.player) := by
        unfold satAdd
        omega
      refine ⟨?_, ?_, ?_⟩
      · rw [hcoll, hiff]
        constructor
        · intro hcase
          exact ⟨w0, rfl, hcase⟩
        · rintro ⟨w, hww, hcase⟩
          rw [List.head?_cons, Option.some.injEq] at hww
          rw [← hww] at hcase
          exact hcase
      · intro habs
        exact absurd habs (List.cons_ne_nil _ _)
      · have hfalse : t.is_collision M = false ↔
            ¬ (t.is_collision M = true) := by
          simp
        rw [hfalse, hcoll, hiff]
        constructor
        · intro hnot
          right
          exact ⟨w0, rfl, by omega⟩
        · rintro (habs | ⟨w, hww, h1, h2⟩)
          · exact absurd habs (List.cons_ne_nil _ _)
          · rw [List.head?_cons, Option.some.injEq] at hww
            rw [← hww] at h1 h2
            omega

/-- C4 witness: the theorem at a concrete one-row tunnel with the player
strictly inside the passable range. -/
theorem c4_witness :
    2 ≤ 255 ∧
      (((⟨2, 5, [⟨0, 3⟩]⟩ : Tunnel).is_collision 255 = true ↔
          ∃ w, (⟨2, 5, [⟨0, 3⟩]⟩ : Tunnel).walls.head? = some w ∧
            ((2 : Nat) ≤ w.left_wall ∨
              w.left_wall + w.gap_to_right_wall < 2)) ∧
        ((⟨2, 5, [⟨0, 3⟩]⟩ : Tunnel).walls = [] →
          (⟨2, 5, [⟨0, 3⟩]⟩ : Tunnel).is_collision 255 = false) ∧
        ((⟨2, 5, [⟨0, 3⟩]⟩ : Tunnel).is_collision 255 = false ↔
          (⟨2, 5, [⟨0, 3⟩]⟩ : Tunnel).walls = [] ∨
            ∃ w, (⟨2, 5, [⟨0, 3⟩]⟩ : Tunnel).walls.head? = some w ∧
              w.left_wall < 2 ∧
                (2 : Nat) ≤ w.left_wall + w.gap_to_right_wall)) :=
  ⟨by decide, c4_is_collision_characterization 255 ⟨2, 5, [⟨0, 3⟩]⟩ (by decide)⟩

/-- C10: for every tunnel constructed with width `w` (with `w`
representable, `w ≤ M`) and any operation sequence under any generator,
every buffered row satisfies
`left_wall + gap_to_right_wall ≤ max (w - 2) 0`; consequently for
`w ≥ 1` the wall test holds at column 0 and at column `w - 1` of every
buffered row. -/
theorem c10_outer_columns_walled (M : Nat) {σ : Type} (b : TunnelBuilder σ)
    (s : σ) (h w : Nat) (hwM : w ≤ M) (ops : List TunnelOp) :
    (∀ r ∈ (applyOps M b (Tunnel.new M b s h w) ops).1.walls,
        r.left_wall + r.gap_to_right_wall ≤ max (w - 2) 0) ∧
      (1 ≤ w → ∀ r ∈ (applyOps M b (Tunnel.new M b s h w) ops).1.walls,
        r.in_wall M 0 = true ∧ r.in_wall M (w - 1) = true) := by
  have hnew_w : (Tunnel.new M b s h w).1.screen_width = w :=
    new_screen_width M b s h w
  have hnew_sums : ∀ r ∈ (Tunnel.new M b s h w).1.walls,
      r.left_wall + r.gap_to_right_wall ≤ w - 2 := by
    rw [new_eq_applyOps]
    exact sums_applyOps M b _ _ w rfl hwM (by simp)
  have hsums := sums_applyOps M b (Tunnel.new M b s h w) ops w hnew_w hwM
    hnew_sums
  constructor
  · intro r hr
    have := hsums r hr
    omega
  · intro hw1 r hr
    exact in_wall_edges M w r hwM (hsums r hr) hw1

/-- C10 witness: the theorem at width 5, height 5, after a step and a
player move. -/
theorem c10_witness :
    5 ≤ 255 ∧
      ((∀ r ∈ (applyOps 255 constLeftBuilder
            (Tunnel.new 255 constLeftBuilder () 5 5)
            [TunnelOp.stepRow, TunnelOp.moveRight]).1.walls,
          r.left_wall + r.gap_to_right_wall ≤ max (5 - 2) 0) ∧
        (1 ≤ 5 → ∀ r ∈ (applyOps 255 constLeftBuilder
              (Tunnel.new 255 constLeftBuilder () 5 5)
              [TunnelOp.stepRow, TunnelOp.moveRight]).1.walls,
            r.in_wall 255 0 = true ∧ r.in_wall 255 (5 - 1) = true)) :=
  ⟨by decide,
    c10_outer_columns_walled 255 constLeftBuilder () 5 5 (by decide)
      [TunnelOp.stepRow, TunnelOp.moveRight]⟩

/-- C9 witness: both halves of the theorem at concrete inputs. -/
theorem c9_witness :
    (repeatMove Tunnel.move_player_left 4 ⟨0, 5, []⟩).player = 0 ∧
      (repeatMove (Tunnel.move_player_right 7) 4 ⟨7, 5, []⟩).player = 7 :=
  ⟨(c9_player_moves_idempotent 7 ⟨0, 5, []⟩).1 rfl 4,
    (c9_player_moves_idempotent 7 ⟨7, 5, []⟩).2 rfl 4⟩

end TunnelRs
